import Mathlib

/-!
Verification of the prerequisite-warning feature of the myDegrees browser
extension.  The definitions below are a shallow embedding of the feature's
JavaScript source (the `prereqs` feature module): pure string processing is
translated to functions on `String` / `List Char`, the JavaScript `Map` is
modelled as an association list with last-write-wins lookup, network fetches
become explicit outcome parameters, and DOM badge writes become explicit
badge actions.  Theorems about the claims of the specification follow the
definitions.
-/

namespace MDE

/-! ## JavaScript string primitives

`jsIsSpace` models the characters matched by the JavaScript regex class
`\s` (restricted to the ASCII whitespace characters that can actually occur
in the scraped planner text).  `jsTrim` models `String.prototype.trim` and
`jsCollapse` models `.replace(/\s+/g, " ")` (every maximal whitespace run
becomes a single space). -/

def jsIsSpace (c : Char) : Bool :=
  c == ' ' || c == '\t' || c == '\n' || c == '\r' || c == '\x0b' || c == '\x0c'

def jsTrim (s : String) : String :=
  String.mk (((s.data.dropWhile jsIsSpace).reverse.dropWhile jsIsSpace).reverse)

/-- One pass over the characters; `prevSpace` records whether the previous
character belonged to a whitespace run already emitted as `' '`. -/
def collapseGo (prevSpace : Bool) : List Char → List Char
  | [] => []
  | c :: rest =>
    if jsIsSpace c then
      if prevSpace then collapseGo true rest
      else ' ' :: collapseGo true rest
    else c :: collapseGo false rest

def jsCollapse (s : String) : String :=
  String.mk (collapseGo false s.data)

/-- Model of `String.prototype.toUpperCase` on the ASCII strings the feature
handles. -/
def strUpper (s : String) : String :=
  String.mk (s.data.map Char.toUpper)

def isUpperChar (c : Char) : Bool := 'A' ≤ c && c ≤ 'Z'

def isDigitChar (c : Char) : Bool := '0' ≤ c && c ≤ '9'

def isAsciiLetter (c : Char) : Bool :=
  ('A' ≤ c && c ≤ 'Z') || ('a' ≤ c && c ≤ 'z')

/-! ## The course-code pattern

The source uses the regular expression `^([A-Z]{2,4})\s?(\d{3}[A-Za-z]?)$`
(in `normalizeCourseCode`) and the identical pattern without capture groups
as `COURSE_CODE_REGEX`.  On this pattern greedy matching never needs to
backtrack: taking fewer uppercase letters leaves an uppercase letter in
front of the `\s?\d` part, which cannot match, so the deterministic
functions below are faithful to the JavaScript matcher. -/

/-- Match `^([A-Z]{2,4})\s?(\d{3}[A-Za-z]?)$` against a character list,
returning the two capture groups. -/
def courseCodeMatch (cs : List Char) : Option (List Char × List Char) :=
  let letters := cs.takeWhile isUpperChar
  let rest1 := cs.dropWhile isUpperChar
  if 2 ≤ letters.length ∧ letters.length ≤ 4 then
    let rest2 := match rest1 with
      | c :: t => if jsIsSpace c then t else rest1
      | [] => []
    match rest2 with
    | d1 :: d2 :: d3 :: rest3 =>
      if isDigitChar d1 && isDigitChar d2 && isDigitChar d3 then
        match rest3 with
        | [] => some (letters, [d1, d2, d3])
        | [c] => if isAsciiLetter c then some (letters, [d1, d2, d3, c]) else none
        | _ => none
      else none
    | _ => none
  else none

def courseCodeMatchStr (s : String) : Option (String × String) :=
  (courseCodeMatch s.data).map (fun p => (String.mk p.1, String.mk p.2))

/-- Match `^([A-Z]{2,4})\s(\d{3}[A-Za-z]?)$` (mandatory single whitespace),
the pattern used by `splitCourseCode`. -/
def courseCodeMatchSpace (cs : List Char) : Option (List Char × List Char) :=
  let letters := cs.takeWhile isUpperChar
  let rest1 := cs.dropWhile isUpperChar
  if 2 ≤ letters.length ∧ letters.length ≤ 4 then
    match rest1 with
    | c :: rest2 =>
      if jsIsSpace c then
        match rest2 with
        | d1 :: d2 :: d3 :: rest3 =>
          if isDigitChar d1 && isDigitChar d2 && isDigitChar d3 then
            match rest3 with
            | [] => some (letters, [d1, d2, d3])
            | [c2] => if isAsciiLetter c2 then some (letters, [d1, d2, d3, c2]) else none
            | _ => none
          else none
        | _ => none
      else none
    | [] => none
  else none

/-- The feature's `COURSE_CODE_REGEX.test((text).trim())` step. -/
def courseCodeTest (s : String) : Bool :=
  (courseCodeMatchStr (jsTrim s)).isSome

/-! ## `normalizeCourseCode` and `splitCourseCode`

Source:
```js
function normalizeCourseCode(raw) {
  const s = (raw || "").trim().replace(/\s+/g, " ");
  const m = s.match(/^([A-Z]{2,4})\s?(\d{3}[A-Za-z]?)$/);
  return m ? `${m[1]} ${m[2].toUpperCase()}` : s;
}
```
Note that on a non-match the function returns `s` — the trimmed,
whitespace-collapsed string — not the raw input. -/

def normalizeCourseCode (raw : String) : String :=
  let s := jsCollapse (jsTrim raw)
  match courseCodeMatchStr s with
  | some (d, n) => d ++ " " ++ strUpper n
  | none => s

structure CourseParts where
  discipline : String
  number : String
deriving DecidableEq, Repr

/-- Source: `splitCourseCode` re-matches the normalized code against
`^([A-Z]{2,4})\s(\d{3}[A-Za-z]?)$` and returns `{discipline, number}` or
`null`. -/
def splitCourseCode (code : String) : Option CourseParts :=
  match courseCodeMatchSpace (normalizeCourseCode code).data with
  | some (d, n) => some ⟨String.mk d, String.mk n⟩
  | none => none

/-! ## `termLabelToCode` (the Term Resolver)

Source:
```js
function termLabelToCode(season, year) {
  const suffix = { Summer: "00", Fall: "01", Winter: "02", Spring: "03" }[season];
  if (!suffix) return null;
  const y = Number(year);
  const codeYear = season === "Summer" || season === "Fall" ? y + 1 : y;
  return `${codeYear}${suffix}`;
}
```
The `year` argument is always a string of decimal digits at the call site;
`Number(year)` is modelled by taking the year as a `Nat`. -/

def termLabelToCode (season : String) (year : Nat) : Option String :=
  let suffix? : Option String :=
    if season == "Summer" then some "00"
    else if season == "Fall" then some "01"
    else if season == "Winter" then some "02"
    else if season == "Spring" then some "03"
    else none
  match suffix? with
  | none => none
  | some suffix =>
    let codeYear := if season == "Summer" || season == "Fall" then year + 1 else year
    some (toString codeYear ++ suffix)

example : normalizeCourseCode "CS361" = "CS 361" := by decide
example : normalizeCourseCode "ece271" = "ece271" := by decide
example : normalizeCourseCode "CS  361" = "CS 361" := by decide
example : normalizeCourseCode " CS 261H " = "CS 261H" := by decide
example : splitCourseCode "CS361" = some ⟨"CS", "361"⟩ := by decide
example : splitCourseCode "nope" = none := by decide
example : termLabelToCode "Fall" 2025 = some "202601" := by decide
example : termLabelToCode "Summer" 2025 = some "202600" := by decide
example : termLabelToCode "Winter" 2026 = some "202602" := by decide
example : termLabelToCode "Spring" 2026 = some "202603" := by decide
example : termLabelToCode "July" 2025 = none := by decide

/-! ## JavaScript `Map` model

The feature keeps `prereqCache`, `courseToIndex`, `termToParts` and
`termIndexToLabel` in JavaScript `Map`s.  `Map.set` followed by `Map.get`
returns the most recently set value for a key; we model a map as the list
of all `set` calls in order, with `mapGet` returning the value of the last
matching entry. -/

def mapSet {α β : Type} (m : List (α × β)) (k : α) (v : β) : List (α × β) :=
  m ++ [(k, v)]

def mapGet {α β : Type} [BEq α] (m : List (α × β)) (k : α) : Option β :=
  (m.reverse.find? (fun e => e.1 == k)).map (fun e => e.2)

theorem mapGet_mapSet {α β : Type} [BEq α] (m : List (α × β)) (k c : α) (v : β) :
    mapGet (mapSet m k v) c = if k == c then some v else mapGet m c := by
  simp only [mapGet, mapSet, List.reverse_append, List.reverse_cons,
    List.reverse_nil, List.nil_append, List.cons_append, List.find?]
  cases h : (k == c) <;> simp [h]

theorem mapGet_nil {α β : Type} [BEq α] (k : α) : mapGet ([] : List (α × β)) k = none := rfl

/-! ## Prerequisite tokens and `buildPrereqGroups`

The `/course-link/term` response carries, per course, a flat list of
prerequisite objects; the fields modelled are exactly the ones the source
reads (`null`/missing string fields become `""`, matching the JavaScript
`(x || "")` coercions; a `null` connector is `""`, which is `!== "A"`). -/

structure PrereqToken where
  subjectCodePrerequisite : String
  courseNumberPrerequisite : String
  leftParenthesis : String
  rightParenthesis : String
  connector : String
deriving DecidableEq, Repr

/-- `needle` occurs at the start of `hay`. -/
def seqBegins : List Char → List Char → Bool
  | [], _ => true
  | _ :: _, [] => false
  | a :: as, b :: bs => a == b && seqBegins as bs

/-- `needle` occurs somewhere in `hay` (JavaScript `String.prototype.includes`). -/
def charSeqHas (needle : List Char) : List Char → Bool
  | [] => needle.isEmpty
  | c :: t => seqBegins needle (c :: t) || charSeqHas needle t

def strIncludes (hay needle : String) : Bool :=
  charSeqHas needle.data hay.data

/-- The course code the source builds for a token:
`normalizeCourseCode(p.subjectCodePrerequisite + " " + p.courseNumberPrerequisite)`. -/
def tokCode (p : PrereqToken) : String :=
  normalizeCourseCode (p.subjectCodePrerequisite ++ " " ++ p.courseNumberPrerequisite)

/-- First-occurrence de-duplication, the semantics of
`Array.from(new Set(g))` (a JavaScript `Set` keeps insertion order). -/
def dedupSeen (seen : List String) : List String → List String
  | [] => []
  | x :: xs => if seen.contains x then dedupSeen seen xs else x :: dedupSeen (x :: seen) xs

def dedupFirst (l : List String) : List String := dedupSeen [] l

/-- One iteration of the loop body of `buildPrereqGroups`; the accumulator is
`(groups, current)`. -/
def buildStep (acc : List (List String) × List String) (p : PrereqToken) :
    List (List String) × List String :=
  let code := tokCode p
  let startsGroup := strIncludes p.leftParenthesis "("
  let isAnd := p.connector == "A"
  let acc1 := if (startsGroup || isAnd) && !acc.2.isEmpty then (acc.1 ++ [acc.2], ([] : List String)) else acc
  let cur := acc1.2 ++ [code]
  let endsGroup := strIncludes p.rightParenthesis ")"
  if endsGroup && !cur.isEmpty then (acc1.1 ++ [cur], []) else (acc1.1, cur)

/-- Source: `buildPrereqGroups(prereqObjs)` — walk the token list, flush the
current group on an opening parenthesis or an `"A"` connector (when the
current group is non-empty), always append the token's code, flush on a
closing parenthesis, flush any leftover group, then de-dupe within groups. -/
def buildPrereqGroups (toks : List PrereqToken) : List (List String) :=
  let fin := toks.foldl buildStep ([], [])
  let gs := if !fin.2.isEmpty then fin.1 ++ [fin.2] else fin.1
  gs.map dedupFirst

/-- Restatement of the grouping algorithm in the words of the specification
(claim C2): walk the tokens in order; flush the current group and start a
new one when a token opens a parenthesis or carries connector `"A"` while
the current group is non-empty; always append the token's code; flush when
a token closes a parenthesis; flush any group left open at the end; remove
duplicates within each flushed group.  This definition is written from the
spec's wording (emission-style recursion, de-duplication at flush time) and
is proved equal to `buildPrereqGroups`. -/
def specWalk : List PrereqToken → List String → List (List String)
  | [], cur => if cur.isEmpty then [] else [dedupFirst cur]
  | p :: rest, cur =>
    let code := tokCode p
    let opens := strIncludes p.leftParenthesis "("
    let andConn := p.connector == "A"
    let flushNow := (opens || andConn) && !cur.isEmpty
    let flushed := if flushNow then [dedupFirst cur] else []
    let cur1 := (if flushNow then [] else cur) ++ [code]
    if strIncludes p.rightParenthesis ")" then
      flushed ++ [dedupFirst cur1] ++ specWalk rest []
    else
      flushed ++ specWalk rest cur1

def buildPrereqGroupsSpec (toks : List PrereqToken) : List (List String) :=
  specWalk toks []

/-- Finishing step of `buildPrereqGroups` applied to a fold state. -/
def finishGroups (r : List (List String) × List String) : List (List String) :=
  (if !r.2.isEmpty then r.1 ++ [r.2] else r.1).map dedupFirst

theorem finishGroups_foldl_eq_specWalk (toks : List PrereqToken) :
    ∀ (gs : List (List String)) (cur : List String),
      finishGroups (toks.foldl buildStep (gs, cur)) = gs.map dedupFirst ++ specWalk toks cur := by
  induction toks with
  | nil =>
    intro gs cur
    by_cases h : cur.isEmpty <;>
      simp [finishGroups, specWalk, h, List.map_append]
  | cons p rest ih =>
    intro gs cur
    rw [List.foldl_cons]
    by_cases h1 : (strIncludes p.leftParenthesis "(" || p.connector == "A") && !cur.isEmpty <;>
      by_cases h2 : strIncludes p.rightParenthesis ")" <;>
        simp [buildStep, specWalk, h1, h2, ih, List.map_append]

theorem buildPrereqGroups_eq_spec (toks : List PrereqToken) :
    buildPrereqGroups toks = buildPrereqGroupsSpec toks := by
  have h := finishGroups_foldl_eq_specWalk toks [] []
  simpa [buildPrereqGroups, finishGroups, buildPrereqGroupsSpec] using h

/-- The token encoding of `(CS 261 OR CS 261H) AND (ECE 271 OR CS 271)`
as returned by the API: parentheses markers and connectors on the flat
token list. -/
def exampleTokens : List PrereqToken :=
  [⟨"CS", "261", "(", "", ""⟩,
   ⟨"CS", "261H", "", ")", "O"⟩,
   ⟨"ECE", "271", "(", "", "A"⟩,
   ⟨"CS", "271", "", ")", "O"⟩]

example : buildPrereqGroups exampleTokens = [["CS 261", "CS 261H"], ["ECE 271", "CS 271"]] := by
  decide

/-! ## Structural invariants of the grouping -/

theorem dedupSeen_not_mem_seen (l : List String) :
    ∀ (seen : List String) (x : String), x ∈ dedupSeen seen l → ¬ x ∈ seen := by
  induction l with
  | nil => intro seen x hx; simp [dedupSeen] at hx
  | cons y ys ih =>
    intro seen x hx
    cases hy : seen.contains y with
    | true => exact ih seen x (by simpa only [dedupSeen, hy, if_true] using hx)
    | false =>
      simp only [dedupSeen, hy, Bool.false_eq_true, if_false] at hx
      rcases List.mem_cons.mp hx with rfl | hx2
      · simpa using hy
      · intro hxs
        exact ih (y :: seen) x hx2 (List.mem_cons_of_mem y hxs)

theorem dedupSeen_nodup (l : List String) : ∀ seen : List String, (dedupSeen seen l).Nodup := by
  induction l with
  | nil => intro seen; simp [dedupSeen]
  | cons y ys ih =>
    intro seen
    cases hy : seen.contains y with
    | true => simpa only [dedupSeen, hy, if_true] using ih seen
    | false =>
      simp only [dedupSeen, hy, Bool.false_eq_true, if_false]
      refine List.nodup_cons.mpr ⟨?_, ih (y :: seen)⟩
      intro hmem
      exact dedupSeen_not_mem_seen ys (y :: seen) y hmem (List.mem_cons_self y seen)

theorem dedupFirst_nodup (l : List String) : (dedupFirst l).Nodup :=
  dedupSeen_nodup l []

theorem dedupFirst_ne_nil (l : List String) (h : l ≠ []) : dedupFirst l ≠ [] := by
  match l with
  | [] => exact absurd rfl h
  | x :: xs => simp [dedupFirst, dedupSeen]

/-- Every group emitted by the spec-side walk is the de-duplication of a
non-empty list. -/
theorem specWalk_mem (toks : List PrereqToken) :
    ∀ (cur : List String) (g : List String), g ∈ specWalk toks cur →
      ∃ l, l ≠ [] ∧ g = dedupFirst l := by
  induction toks with
  | nil =>
    intro cur g hg
    by_cases h : cur.isEmpty
    · simp [specWalk, h] at hg
    · refine ⟨cur, ?_, ?_⟩
      · simpa [List.isEmpty_iff] using h
      · simpa [specWalk, h] using hg
  | cons p rest ih =>
    intro cur g hg
    by_cases h1 : (strIncludes p.leftParenthesis "(" || p.connector == "A") && !cur.isEmpty <;>
      by_cases h2 : strIncludes p.rightParenthesis ")"
    all_goals
      simp only [specWalk, h1, h2, if_pos, if_neg, Bool.false_eq_true, if_false, if_true,
        List.append_nil, List.nil_append, List.cons_append, List.mem_append,
        List.mem_cons, List.mem_singleton, List.not_mem_nil, false_or, or_false] at hg
    · rcases hg with hg | hg | hg
      · exact ⟨cur, by simpa [List.isEmpty_iff] using (Bool.and_elim_right h1), hg⟩
      · exact ⟨[tokCode p], by simp, hg⟩
      · exact ih [] g hg
    · rcases hg with hg | hg
      · exact ⟨cur, by simpa [List.isEmpty_iff] using (Bool.and_elim_right h1), hg⟩
      · exact ih [tokCode p] g hg
    · rcases hg with hg | hg
      · exact ⟨cur ++ [tokCode p], by simp, hg⟩
      · exact ih [] g hg
    · exact ih (cur ++ [tokCode p]) g hg

theorem buildPrereqGroups_mem (toks : List PrereqToken) (g : List String)
    (hg : g ∈ buildPrereqGroups toks) : g ≠ [] ∧ g.Nodup := by
  rw [buildPrereqGroups_eq_spec] at hg
  obtain ⟨l, hl, rfl⟩ := specWalk_mem toks [] g hg
  exact ⟨dedupFirst_ne_nil l hl, dedupFirst_nodup l⟩

/-! ## `loadPrereqCache` value migration

Source: a stored cache value is kept as-is when it is an array whose first
element is an array (new format `string[][]`), and converted by
`value.map((code) => [code])` when it is an array whose first element is a
string (old flat format). -/

inductive StoredPrereqVal where
  | newFormat (gs : List (List String))
  | oldFormat (codes : List String)
deriving DecidableEq

def loadPrereqEntryVal : StoredPrereqVal → List (List String)
  | .newFormat gs => gs
  | .oldFormat codes => codes.map (fun code => [code])

/-! ## Scheduled-course instances and the Satisfaction Evaluator

`applyWarnings(items, courseToIndex, termIndexToLabel)` reads the module
state `historySet` and `prereqCache`; here both are passed explicitly.  The
DOM badge write (`setBadge` / `clearBadge`) is modelled as a `BadgeAction`
returned per item. -/

structure SchedItem where
  courseCode : String
  termIndex : Nat
  termCode : String
deriving DecidableEq, Repr

structure Mention where
  code : String
  term : String
deriving DecidableEq, Repr

abbrev PrereqCache := List (String × List (List String))

/-- Inner loop of `applyWarnings` over one OR-group: returns
`(groupSatisfied, laterMentions pushed by this group)`.  The JavaScript
loop `break`s at the first satisfied option, so no later options are
examined (and none of them are pushed onto `laterMentions`) once the group
is known to be satisfied. -/
def evalGroup (hist : List String) (c2i : List (String × Nat)) (t2l : List (Nat × String))
    (myIdx : Nat) : List String → Bool × List Mention
  | [] => (false, [])
  | opt :: rest =>
    match mapGet c2i opt with
    | some i =>
      if myIdx < i then
        let r := evalGroup hist c2i t2l myIdx rest
        (r.1, ⟨opt, (mapGet t2l i).getD ("Term " ++ toString (i + 1))⟩ :: r.2)
      else if hist.contains opt || decide (i < myIdx) then (true, [])
      else evalGroup hist c2i t2l myIdx rest
    | none =>
      if hist.contains opt then (true, [])
      else evalGroup hist c2i t2l myIdx rest

/-- The option is scheduled at a term strictly after the course being
evaluated (`optIdx != null && optIdx > it.termIndex`). -/
def optIsLater (c2i : List (String × Nat)) (myIdx : Nat) (opt : String) : Bool :=
  match mapGet c2i opt with
  | some i => decide (myIdx < i)
  | none => false

/-- `historySet.has(option) || (optIdx != null && optIdx < it.termIndex)`. -/
def optSat (hist : List String) (c2i : List (String × Nat)) (myIdx : Nat) (opt : String) : Bool :=
  hist.contains opt ||
    (match mapGet c2i opt with
     | some i => decide (i < myIdx)
     | none => false)

/-- The option stops the group scan: it is not a later mention and it is
satisfied. -/
def optBreaks (hist : List String) (c2i : List (String × Nat)) (myIdx : Nat) (opt : String) : Bool :=
  !optIsLater c2i myIdx opt && optSat hist c2i myIdx opt

/-- The mention pushed for a later-scheduled option. -/
def mentionIfLater (c2i : List (String × Nat)) (t2l : List (Nat × String)) (myIdx : Nat)
    (opt : String) : Option Mention :=
  match mapGet c2i opt with
  | some i =>
    if myIdx < i then some ⟨opt, (mapGet t2l i).getD ("Term " ++ toString (i + 1))⟩ else none
  | none => none

theorem optBreaks_of_none {c2i : List (String × Nat)} {opt : String}
    (hist : List String) (myIdx : Nat) (hidx : mapGet c2i opt = none) :
    optBreaks hist c2i myIdx opt = hist.contains opt := by
  simp only [optBreaks, optIsLater, optSat, hidx, Bool.not_false, Bool.true_and, Bool.or_false]

theorem optBreaks_of_later {c2i : List (String × Nat)} {opt : String} {i : Nat}
    (hist : List String) {myIdx : Nat} (hidx : mapGet c2i opt = some i) (hlt : myIdx < i) :
    optBreaks hist c2i myIdx opt = false := by
  simp only [optBreaks, optIsLater, hidx, decide_eq_true hlt, Bool.not_true, Bool.false_and]

theorem optBreaks_of_notLater {c2i : List (String × Nat)} {opt : String} {i : Nat}
    (hist : List String) {myIdx : Nat} (hidx : mapGet c2i opt = some i) (hlt : ¬ myIdx < i) :
    optBreaks hist c2i myIdx opt = (hist.contains opt || decide (i < myIdx)) := by
  simp only [optBreaks, optIsLater, optSat, hidx, decide_eq_false hlt, Bool.not_false,
    Bool.true_and]

theorem mentionIfLater_of_none {c2i : List (String × Nat)} {opt : String}
    (t2l : List (Nat × String)) (myIdx : Nat) (hidx : mapGet c2i opt = none) :
    mentionIfLater c2i t2l myIdx opt = none := by
  simp only [mentionIfLater, hidx]

theorem mentionIfLater_of_later {c2i : List (String × Nat)} {opt : String} {i : Nat}
    (t2l : List (Nat × String)) {myIdx : Nat} (hidx : mapGet c2i opt = some i)
    (hlt : myIdx < i) :
    mentionIfLater c2i t2l myIdx opt =
      some ⟨opt, (mapGet t2l i).getD ("Term " ++ toString (i + 1))⟩ := by
  simp only [mentionIfLater, hidx, if_pos hlt]

theorem mentionIfLater_of_notLater {c2i : List (String × Nat)} {opt : String} {i : Nat}
    (t2l : List (Nat × String)) {myIdx : Nat} (hidx : mapGet c2i opt = some i)
    (hlt : ¬ myIdx < i) :
    mentionIfLater c2i t2l myIdx opt = none := by
  simp only [mentionIfLater, hidx, if_neg hlt]

theorem evalGroup_fst (hist : List String) (c2i : List (String × Nat))
    (t2l : List (Nat × String)) (myIdx : Nat) (g : List String) :
    (evalGroup hist c2i t2l myIdx g).1 = g.any (optBreaks hist c2i myIdx) := by
  induction g with
  | nil => rfl
  | cons opt rest ih =>
    rw [List.any_cons]
    cases hidx : mapGet c2i opt with
    | none =>
      rw [optBreaks_of_none hist myIdx hidx]
      simp only [evalGroup, hidx]
      cases hc : hist.contains opt with
      | true => simp only [hc, if_true, Bool.true_or]
      | false => simp only [hc, Bool.false_eq_true, if_false, Bool.false_or, ih]
    | some i =>
      simp only [evalGroup, hidx]
      by_cases hlt : myIdx < i
      · rw [if_pos hlt, optBreaks_of_later hist hidx hlt]
        simp only [Bool.false_or]
        exact ih
      · rw [if_neg hlt, optBreaks_of_notLater hist hidx hlt]
        cases hsat : (hist.contains opt || decide (i < myIdx)) with
        | true => simp only [hsat, if_true, Bool.true_or]
        | false => simp only [hsat, Bool.false_eq_true, if_false, Bool.false_or, ih]

theorem evalGroup_snd (hist : List String) (c2i : List (String × Nat))
    (t2l : List (Nat × String)) (myIdx : Nat) (g : List String) :
    (evalGroup hist c2i t2l myIdx g).2 =
      (g.takeWhile (fun o => !optBreaks hist c2i myIdx o)).filterMap
        (mentionIfLater c2i t2l myIdx) := by
  induction g with
  | nil => rfl
  | cons opt rest ih =>
    rw [List.takeWhile_cons]
    cases hidx : mapGet c2i opt with
    | none =>
      simp only [evalGroup, hidx, optBreaks_of_none hist myIdx hidx]
      cases hc : hist.contains opt with
      | true => simp only [hc, if_true, Bool.not_true, Bool.false_eq_true, if_false]; rfl
      | false =>
        simp only [hc, Bool.false_eq_true, if_false, Bool.not_false, if_true,
          List.filterMap_cons, mentionIfLater_of_none t2l myIdx hidx, ih]
    | some i =>
      by_cases hlt : myIdx < i
      · rw [optBreaks_of_later hist hidx hlt]
        simp only [evalGroup, hidx, if_pos hlt, Bool.not_false, if_true, List.filterMap_cons,
          mentionIfLater_of_later t2l hidx hlt, ih]
      · rw [optBreaks_of_notLater hist hidx hlt]
        simp only [evalGroup, hidx, if_neg hlt]
        cases hsat : (hist.contains opt || decide (i < myIdx)) with
        | true => simp only [hsat, if_true, Bool.not_true, Bool.false_eq_true, if_false]; rfl
        | false =>
          simp only [hsat, Bool.false_eq_true, if_false, Bool.not_false, if_true,
            List.filterMap_cons, mentionIfLater_of_notLater t2l hidx hlt, ih]

/-- The per-course evaluation loop of `applyWarnings`: accumulates
`missingGroups` and `laterMentions` over the formula looked up in the
cache (`prereqCache.get(it.courseCode) || []`). -/
def evalItem (hist : List String) (c2i : List (String × Nat)) (t2l : List (Nat × String))
    (cache : PrereqCache) (it : SchedItem) : List (List String) × List Mention :=
  let groups := (mapGet cache it.courseCode).getD []
  groups.foldl
    (fun acc g =>
      let r := evalGroup hist c2i t2l it.termIndex g
      (if r.1 then acc.1 else acc.1 ++ [g], acc.2 ++ r.2))
    ([], [])

theorem evalItem_foldl (hist : List String) (c2i : List (String × Nat))
    (t2l : List (Nat × String)) (myIdx : Nat) (gs : List (List String)) :
    ∀ (a : List (List String)) (b : List Mention),
      gs.foldl
        (fun acc g =>
          let r := evalGroup hist c2i t2l myIdx g
          (if r.1 then acc.1 else acc.1 ++ [g], acc.2 ++ r.2))
        (a, b) =
      (a ++ gs.filter (fun g => !(evalGroup hist c2i t2l myIdx g).1),
       b ++ (gs.map (fun g => (evalGroup hist c2i t2l myIdx g).2)).flatten) := by
  induction gs with
  | nil => intro a b; simp
  | cons g rest ih =>
    intro a b
    rw [List.foldl_cons]
    cases hsat : (evalGroup hist c2i t2l myIdx g).1 with
    | true => simp [hsat, ih, List.filter_cons, List.append_assoc]
    | false => simp [hsat, ih, List.filter_cons, List.append_assoc]

/-- Characterization of `evalItem`: `missingGroups` is exactly the set of
groups with no non-later satisfied option, and `laterMentions` is, per
group, the later-scheduled options examined before the first satisfying
option. -/
theorem evalItem_spec (hist : List String) (c2i : List (String × Nat))
    (t2l : List (Nat × String)) (cache : PrereqCache) (it : SchedItem) :
    evalItem hist c2i t2l cache it =
      (((mapGet cache it.courseCode).getD []).filter
         (fun g => !(g.any (optBreaks hist c2i it.termIndex))),
       (((mapGet cache it.courseCode).getD []).map
         (fun g => (g.takeWhile (fun o => !optBreaks hist c2i it.termIndex o)).filterMap
            (mentionIfLater c2i t2l it.termIndex))).flatten) := by
  unfold evalItem
  rw [evalItem_foldl]
  simp only [List.nil_append, Prod.mk.injEq]
  constructor
  · apply List.filter_congr
    intro g _
    rw [evalGroup_fst]
  · congr 1
    apply List.map_congr_left
    intro g _
    rw [evalGroup_snd]

inductive BadgeAction where
  | clear
  | set (tooltip : String)
deriving DecidableEq, Repr

/-- Badge decision for one item (`applyWarnings` loop body after the group
evaluation): clear if nothing is missing and nothing is mentioned later;
otherwise union the missing-group codes and the later-mention codes (a
JavaScript `Set`, insertion order, first occurrence wins) and set the
badge, unless the union is empty. -/
def actionFor (hist : List String) (c2i : List (String × Nat)) (t2l : List (Nat × String))
    (cache : PrereqCache) (it : SchedItem) : BadgeAction :=
  let mv := evalItem hist c2i t2l cache it
  if mv.1.isEmpty && mv.2.isEmpty then .clear
  else
    let missingSet := dedupFirst (mv.1.flatten ++ mv.2.map (fun m => m.code))
    if missingSet.isEmpty then .clear
    else .set ("Missing Prerequisite: " ++ String.intercalate ", " missingSet)

/-- Source: `applyWarnings` — one badge action per scheduled item. -/
def applyWarnings (hist : List String) (c2i : List (String × Nat)) (t2l : List (Nat × String))
    (cache : PrereqCache) (items : List SchedItem) : List (SchedItem × BadgeAction) :=
  items.map (fun it => (it, actionFor hist c2i t2l cache it))

example :
    actionFor [] [("CS 362", 0)] [(0, "Fall 2025")] [("CS 362", [["CS 261"]])]
      ⟨"CS 362", 0, "202601"⟩ = .set "Missing Prerequisite: CS 261" := by decide

example :
    actionFor ["CS 261"] [("CS 362", 2)] [] [("CS 362", [["CS 261"]])]
      ⟨"CS 362", 2, "202601"⟩ = .clear := by decide

example :
    actionFor [] [("CS 362", 2), ("CS 261", 1)] [] [("CS 362", [["CS 261"]])]
      ⟨"CS 362", 2, "202601"⟩ = .clear := by decide

example :
    actionFor [] [("CS 362", 2), ("CS 261", 3)] [(3, "Spring 2027")] [("CS 362", [["CS 261"]])]
      ⟨"CS 362", 2, "202601"⟩ = .set "Missing Prerequisite: CS 261" := by decide

/-! ## `collectScheduled` (the Scheduled-Course Collector)

The DOM scraping itself (locating `#term-container`, finding the label
element, `closest('div[draggable="true"]')`) is collaborator territory per
the specification's page-model interface; a planner column is modelled by
the season/year the label regexes extract (`none` when no label element is
found or neither label pattern matches) together with the text of each
`p[aria-label]` course element paired with whether its card element can be
located.  Everything after that point — the course-code test, the
normalization, the term-code resolution, and the construction of `items`,
`courseToIndex` and `termIndexToLabel` — follows the source line by line. -/

structure PageColumn where
  label : Option (String × Nat)
  courseEls : List (String × Bool)
deriving DecidableEq

structure CollectOut where
  items : List SchedItem
  courseToIndex : List (String × Nat)
  termIndexToLabel : List (Nat × String)
deriving DecidableEq

/-- Inner loop over the course elements of one column: keep elements whose
trimmed text matches `COURSE_CODE_REGEX` and whose card is locatable;
append the instance to `items` and `set` the (normalized) code's term index. -/
def collectElStep (termIndex : Nat) (termCode : String) (a : CollectOut)
    (el : String × Bool) : CollectOut :=
  if courseCodeTest el.1 && el.2 then
    let code := normalizeCourseCode el.1
    { a with
      items := a.items ++ [⟨code, termIndex, termCode⟩],
      courseToIndex := mapSet a.courseToIndex code termIndex }
  else a

/-- Body of the column loop: skip the column when no label was found or the
term code is unresolvable; otherwise record the label and process the
course elements. -/
def collectColStep (termIndex : Nat) (acc : CollectOut) (col : PageColumn) : CollectOut :=
  match col.label with
  | none => acc
  | some (season, year) =>
    match termLabelToCode season year with
    | none => acc
    | some termCode =>
      let acc0 := { acc with
        termIndexToLabel :=
          mapSet acc.termIndexToLabel termIndex (season ++ " " ++ toString year) }
      col.courseEls.foldl (collectElStep termIndex termCode) acc0

def collectCols : List PageColumn → Nat → CollectOut → CollectOut
  | [], _, acc => acc
  | col :: rest, termIndex, acc =>
    collectCols rest (termIndex + 1) (collectColStep termIndex acc col)

def collectScheduled (cols : List PageColumn) : CollectOut :=
  collectCols cols 0 ⟨[], [], []⟩

/-- The collector's running invariant: the `courseToIndex` entry for a code
is the `termIndex` of the last collected occurrence of that code. -/
def lastIdxInv (acc : CollectOut) : Prop :=
  ∀ c, mapGet acc.courseToIndex c =
    (acc.items.reverse.find? (fun it => it.courseCode == c)).map (fun it => it.termIndex)

theorem lastIdxInv_elStep (termIndex : Nat) (termCode : String) (a : CollectOut)
    (el : String × Bool) (h : lastIdxInv a) : lastIdxInv (collectElStep termIndex termCode a el) := by
  unfold collectElStep
  cases hc : (courseCodeTest el.1 && el.2) with
  | false => simpa [hc] using h
  | true =>
    simp only [hc, if_true]
    intro c
    rw [mapGet_mapSet]
    simp only [List.reverse_append, List.reverse_cons, List.reverse_nil, List.nil_append,
      List.cons_append, List.find?]
    cases hk : (normalizeCourseCode el.1 == c) with
    | true => simp [hk]
    | false => simpa [hk] using h c

theorem lastIdxInv_fold (termIndex : Nat) (termCode : String) (els : List (String × Bool)) :
    ∀ (a : CollectOut), lastIdxInv a →
      lastIdxInv (els.foldl (collectElStep termIndex termCode) a) := by
  induction els with
  | nil => intro a h; exact h
  | cons el rest ih =>
    intro a h
    rw [List.foldl_cons]
    exact ih _ (lastIdxInv_elStep termIndex termCode a el h)

theorem lastIdxInv_label (acc : CollectOut) (termIndex : Nat) (lbl : String)
    (h : lastIdxInv acc) :
    lastIdxInv { acc with termIndexToLabel := mapSet acc.termIndexToLabel termIndex lbl } := h

theorem lastIdxInv_colStep (i : Nat) (acc : CollectOut) (col : PageColumn)
    (h : lastIdxInv acc) : lastIdxInv (collectColStep i acc col) := by
  obtain ⟨lbl, els⟩ := col
  cases lbl with
  | none => exact h
  | some p =>
    obtain ⟨season, year⟩ := p
    cases ht : termLabelToCode season year with
    | none =>
      have heq : collectColStep i acc ⟨some (season, year), els⟩ = acc := by
        simp [collectColStep, ht]
      rw [heq]; exact h
    | some termCode =>
      have heq : collectColStep i acc ⟨some (season, year), els⟩ =
          els.foldl (collectElStep i termCode)
            { acc with
              termIndexToLabel :=
                mapSet acc.termIndexToLabel i (season ++ " " ++ toString year) } := by
        simp [collectColStep, ht]
      rw [heq]
      exact lastIdxInv_fold i termCode els _
        (lastIdxInv_label acc i (season ++ " " ++ toString year) h)

theorem lastIdxInv_cols (cols : List PageColumn) :
    ∀ (i : Nat) (acc : CollectOut), lastIdxInv acc → lastIdxInv (collectCols cols i acc) := by
  induction cols with
  | nil => intro i acc h; exact h
  | cons col rest ih =>
    intro i acc h
    exact ih _ _ (lastIdxInv_colStep i acc col h)

theorem collectScheduled_lastIdx (cols : List PageColumn) : lastIdxInv (collectScheduled cols) := by
  apply lastIdxInv_cols
  intro c
  rfl

/-- A planner with the same course code placed in two term columns: the
items list keeps both occurrences, the index map keeps the last one. -/
def twoColPage : List PageColumn :=
  [⟨some ("Fall", 2025), [("CS 261", true)]⟩,
   ⟨some ("Winter", 2026), [("CS 261", true)]⟩]

example :
    (collectScheduled twoColPage).items =
      [⟨"CS 261", 0, "202601"⟩, ⟨"CS 261", 1, "202602"⟩] ∧
    mapGet (collectScheduled twoColPage).courseToIndex "CS 261" = some 1 ∧
    (collectScheduled twoColPage).termIndexToLabel = [(0, "Fall 2025"), (1, "Winter 2026")] := by
  decide

/-! ## `ensurePrereqsForScheduled` (the Prerequisite Catalog)

The network is a parameter `net : termCode → courses → Option response`;
`none` models a non-ok HTTP response, on which `fetchCourseInfoForTerm`
throws.  `ensurePrereqsForScheduled` has no try/catch of its own, so a
throw inside the batch loop propagates out of the whole function (up to
`tick`'s catch): the returned `Bool` is `false` when the loop was aborted
by a throw, and the returned cache contains exactly the updates made by
the batches that completed before the throw. -/

structure CourseObjJS where
  subjectCode : String
  courseNumber : String
  prerequisites : List PrereqToken
deriving DecidableEq

/-- Source: `fetchCourseInfoForTerm(termCode, courses)` — on a non-ok
response the function throws (`none`); otherwise each returned course
object is normalized and `prereqCache.set` with its parsed groups. -/
def fetchCourseInfoForTerm (net : String → List CourseParts → Option (List CourseObjJS))
    (termCode : String) (courses : List CourseParts) (cache : PrereqCache) :
    Option PrereqCache :=
  match net termCode courses with
  | none => none
  | some objs =>
    some (objs.foldl
      (fun c obj =>
        mapSet c (normalizeCourseCode (obj.subjectCode ++ " " ++ obj.courseNumber))
          (buildPrereqGroups obj.prerequisites))
      cache)

/-- `termToParts.get(it.termCode).push(parts)` — append to the list of an
existing key (keys keep insertion order), or insert a new key at the end. -/
def tpAdd : List (String × List CourseParts) → String → CourseParts →
    List (String × List CourseParts)
  | [], k, v => [(k, [v])]
  | (k2, l) :: rest, k, v =>
    if k2 == k then (k2, l ++ [v]) :: rest else (k2, l) :: tpAdd rest k v

/-- First loop of `ensurePrereqsForScheduled`: partition the uncached,
splittable scheduled courses by term code. -/
def buildTermToParts (cache : PrereqCache) (items : List SchedItem) :
    List (String × List CourseParts) :=
  items.foldl
    (fun tp it =>
      if (mapGet cache it.courseCode).isSome then tp
      else
        match splitCourseCode it.courseCode with
        | none => tp
        | some parts => tpAdd tp it.termCode parts)
    []

/-- Per-batch de-duplication by the `"${discipline} ${number}"` key. -/
def dedupParts (seen : List String) : List CourseParts → List CourseParts
  | [] => []
  | c :: rest =>
    let k := c.discipline ++ " " ++ c.number
    if seen.contains k then dedupParts seen rest else c :: dedupParts (k :: seen) rest

/-- Second loop of `ensurePrereqsForScheduled`: fetch each term batch in
insertion order; a throw (non-ok response) aborts the loop, leaving the
remaining batches unfetched. -/
def runBatches (net : String → List CourseParts → Option (List CourseObjJS)) :
    List (String × List CourseParts) → PrereqCache → PrereqCache × Bool
  | [], cache => (cache, true)
  | (t, l) :: rest, cache =>
    match fetchCourseInfoForTerm net t (dedupParts [] l) cache with
    | none => (cache, false)
    | some cache2 => runBatches net rest cache2

/-- Source: `ensurePrereqsForScheduled(items)`; the trailing
`savePrereqCache()` persistence call (storage I/O, reached only when no
batch threw) is not part of the state modelled here. -/
def ensurePrereqsForScheduled (net : String → List CourseParts → Option (List CourseObjJS))
    (cache : PrereqCache) (items : List SchedItem) : PrereqCache × Bool :=
  runBatches net (buildTermToParts cache items) cache

/-- A network that fails for term `202601` and answers for `202602`. -/
def splitNet : String → List CourseParts → Option (List CourseObjJS) := fun t _ =>
  if t == "202601" then none
  else if t == "202602" then some [⟨"BB", "202", [⟨"CS", "101", "", "", ""⟩]⟩]
  else some []

example :
    ensurePrereqsForScheduled splitNet []
      [⟨"AA 101", 0, "202601"⟩, ⟨"BB 202", 1, "202602"⟩] = ([], false) := by decide

/-! ## The `tick` bootstrap and the history fetch (Scheduler/Orchestrator)

`tick` sets the `initialized` latch to `true` *before* awaiting
`loadPrereqCache()` and `ensureHistorySet()`; any exception from those
awaits is swallowed by `tick`'s try/catch, and the latch is never reset.
`HistFetchOutcome` is the externally-determined outcome of one
`ensureHistorySet()` call: a fresh-cache hit (no network fetch), a
successful identity+audit fetch, or a thrown non-ok response. -/

inductive HistFetchOutcome where
  | cacheHit (s : List String)
  | fetched (s : List String)
  | failed
deriving DecidableEq

structure HistTickState where
  initialized : Bool
  historySet : List String
deriving DecidableEq

/-- The bootstrap portion of one `tick` run (lines `if (!initialized) ...`
inside the try/catch): returns the new state and whether the identity/audit
fetch was attempted during this tick.  Totality of the function models the
catch at the tick boundary — a `failed` outcome does not escape. -/
def tickBootstrap (o : HistFetchOutcome) (st : HistTickState) : HistTickState × Bool :=
  if st.initialized then (st, false)
  else
    match o with
    | .cacheHit s => ({ initialized := true, historySet := s }, false)
    | .fetched s => ({ initialized := true, historySet := s }, true)
    | .failed => ({ st with initialized := true }, true)

/-! ## The toggle and the badge write (claim C6)

`setPrereqsEnabled(enabled)` flips the module flag and, when disabling,
removes every badge element synchronously.  A running pass that resumes
after its awaits calls `applyWarnings` with **no** further check of
`prereqsEnabled`; `tickFinishPass` is that resumption, applied to the badge
state.  `tickGuard` is the only enabled-check `tick` performs, at its very
first line. -/

structure FeatureState where
  prereqsEnabled : Bool
  badges : List (SchedItem × String)
deriving DecidableEq

def setPrereqsEnabled (enabled : Bool) (st : FeatureState) : FeatureState :=
  if enabled then { st with prereqsEnabled := true }
  else { prereqsEnabled := false, badges := [] }

/-- `if (!prereqsEnabled) return;` — the guard at the top of `tick`. -/
def tickGuard (st : FeatureState) : Bool := st.prereqsEnabled

/-- `setBadge` / `clearBadge` applied to the badge state for each item of
an `applyWarnings` result. -/
def applyBadgeActs (badges : List (SchedItem × String))
    (acts : List (SchedItem × BadgeAction)) : List (SchedItem × String) :=
  acts.foldl
    (fun bs act =>
      match act.2 with
      | .clear => bs.filter (fun e => !(e.1 == act.1))
      | .set tip => bs.filter (fun e => !(e.1 == act.1)) ++ [(act.1, tip)])
    badges

/-- Resumption of a pass after its awaits: `applyWarnings(items, ...)` is
executed against the current badge state regardless of `prereqsEnabled`. -/
def tickFinishPass (hist : List String) (c2i : List (String × Nat))
    (t2l : List (Nat × String)) (cache : PrereqCache) (items : List SchedItem)
    (st : FeatureState) : FeatureState :=
  { st with badges := applyBadgeActs st.badges (applyWarnings hist c2i t2l cache items) }

/-! ## Further evaluator lemmas -/

theorem optIsLater_spec {c2i : List (String × Nat)} {myIdx : Nat} {o : String}
    (h : optIsLater c2i myIdx o = true) : ∃ i, mapGet c2i o = some i ∧ myIdx < i := by
  unfold optIsLater at h
  cases hm : mapGet c2i o with
  | none => rw [hm] at h; exact absurd h (by simp)
  | some i =>
    rw [hm] at h
    exact ⟨i, rfl, of_decide_eq_true h⟩

theorem mentionIfLater_of_isLater_false {c2i : List (String × Nat)} {myIdx : Nat} {o : String}
    (t2l : List (Nat × String)) (h : optIsLater c2i myIdx o = false) :
    mentionIfLater c2i t2l myIdx o = none := by
  unfold optIsLater at h
  unfold mentionIfLater
  cases hm : mapGet c2i o with
  | none => rfl
  | some i =>
    rw [hm] at h
    exact if_neg (of_decide_eq_false h)

theorem optBreaks_of_isLater {hist : List String} {c2i : List (String × Nat)} {myIdx : Nat}
    {o : String} (h : optIsLater c2i myIdx o = true) :
    optBreaks hist c2i myIdx o = false := by
  simp only [optBreaks, h, Bool.not_true, Bool.false_and]

theorem filterMap_mention_all_later (c2i : List (String × Nat)) (t2l : List (Nat × String))
    (myIdx : Nat) (g : List String) (hall : ∀ o ∈ g, optIsLater c2i myIdx o = true) :
    (g.filterMap (mentionIfLater c2i t2l myIdx)).map (fun m => m.code) = g := by
  induction g with
  | nil => rfl
  | cons o rest ih =>
    obtain ⟨i, hm, hlt⟩ := optIsLater_spec (hall o (List.mem_cons_self o rest))
    rw [List.filterMap_cons, mentionIfLater_of_later t2l hm hlt]
    simp only [List.map_cons]
    rw [ih (fun o2 ho2 => hall o2 (List.mem_cons_of_mem o ho2))]

theorem dedupFirst_isEmpty_false (l : List String) (h : l ≠ []) :
    (dedupFirst l).isEmpty = false :=
  List.isEmpty_eq_false.mpr (dedupFirst_ne_nil l h)

/-- When every group of the course's formula is non-empty (which holds for
every formula the Catalog builds, see the C10 theorem), the badge is
cleared exactly when both `missingGroups` and `laterMentions` are empty. -/
theorem actionFor_clear_iff (hist : List String) (c2i : List (String × Nat))
    (t2l : List (Nat × String)) (cache : PrereqCache) (it : SchedItem)
    (hne : ∀ g2 ∈ (mapGet cache it.courseCode).getD [], g2 ≠ []) :
    actionFor hist c2i t2l cache it = BadgeAction.clear ↔
      ((evalItem hist c2i t2l cache it).1 = [] ∧ (evalItem hist c2i t2l cache it).2 = []) := by
  have hspec := evalItem_spec hist c2i t2l cache it
  have hfst := congrArg Prod.fst hspec
  simp only [actionFor]
  cases h1 : (evalItem hist c2i t2l cache it).1.isEmpty with
  | false =>
    obtain ⟨g2, t, hg2⟩ := List.exists_cons_of_ne_nil (List.isEmpty_eq_false.mp h1)
    have hg2mem : g2 ∈ (mapGet cache it.courseCode).getD [] := by
      have hm : g2 ∈ (evalItem hist c2i t2l cache it).1 := by
        rw [hg2]; exact List.mem_cons_self g2 t
      rw [hfst] at hm
      exact List.mem_of_mem_filter hm
    obtain ⟨c, t2, hc⟩ := List.exists_cons_of_ne_nil (hne g2 hg2mem)
    have hcat : (evalItem hist c2i t2l cache it).1.flatten ++
        (evalItem hist c2i t2l cache it).2.map (fun m => m.code) ≠ [] := by
      rw [hg2, hc]; simp
    simp only [h1, Bool.false_and, Bool.false_eq_true, if_false,
      dedupFirst_isEmpty_false _ hcat]
    exact iff_of_false (by simp) (fun hcon => (List.isEmpty_eq_false.mp h1) hcon.1)
  | true =>
    cases h2 : (evalItem hist c2i t2l cache it).2.isEmpty with
    | true =>
      simp only [h1, h2, Bool.and_self, if_true]
      exact iff_of_true (by trivial) ⟨List.isEmpty_iff.mp h1, List.isEmpty_iff.mp h2⟩
    | false =>
      have he1 : (evalItem hist c2i t2l cache it).1 = [] := List.isEmpty_iff.mp h1
      obtain ⟨m, t, hmt⟩ :=
        List.exists_cons_of_ne_nil (List.isEmpty_eq_false.mp h2)
      have hcat : (evalItem hist c2i t2l cache it).1.flatten ++
          (evalItem hist c2i t2l cache it).2.map (fun m => m.code) ≠ [] := by
        rw [he1, hmt]; simp
      simp only [h1, h2, Bool.and_false, Bool.false_eq_true, if_false,
        dedupFirst_isEmpty_false _ hcat]
      exact iff_of_false (by simp) (fun hcon => (List.isEmpty_eq_false.mp h2) hcon.2)

/-! # Claims -/

/-- Claim C1 (corrected).  For every scheduled course instance, the verdict
is computed from the cached formula (`[]` when uncached, which yields a
compliant verdict): `missingGroups` contains exactly the groups with no
satisfied non-later option, where a non-later option is satisfied iff it is
in the HistorySet or scheduled strictly earlier; `laterMentions`, however,
records a later-scheduled option only when it is examined before the
group's first satisfying option — the group scan stops as soon as one
non-later option is satisfied, so later-scheduled options after that point
are never recorded (the correction relative to the claim as stated). -/
theorem claim_C1_applyWarnings_eval (hist : List String) (c2i : List (String × Nat))
    (t2l : List (Nat × String)) (cache : PrereqCache) (it : SchedItem) :
    (evalItem hist c2i t2l cache it).1 =
      ((mapGet cache it.courseCode).getD []).filter
        (fun g => !(g.any (optBreaks hist c2i it.termIndex))) ∧
    (evalItem hist c2i t2l cache it).2 =
      (((mapGet cache it.courseCode).getD []).map
        (fun g => (g.takeWhile (fun o => !optBreaks hist c2i it.termIndex o)).filterMap
           (mentionIfLater c2i t2l it.termIndex))).flatten ∧
    (mapGet cache it.courseCode = none → actionFor hist c2i t2l cache it = .clear) := by
  have h := evalItem_spec hist c2i t2l cache it
  refine ⟨by rw [h], by rw [h], ?_⟩
  intro hnone
  have h0 : evalItem hist c2i t2l cache it = ([], []) := by
    rw [h, hnone]; rfl
  simp [actionFor, h0]

/-- Witness for the C1 theorem at a concrete input: an uncached course gets
its badge cleared. -/
theorem claim_C1_witness :
    actionFor [] [] [] [] ⟨"CS 101", 0, "T"⟩ = BadgeAction.clear :=
  (claim_C1_applyWarnings_eval [] [] [] [] ⟨"CS 101", 0, "T"⟩).2.2 rfl

/-- Counterexample to claim C1 as stated: course `CS 362` at term 0 with
formula `[["CS 261", "CS 999"]]`; `CS 261` is in the HistorySet and
`CS 999` is scheduled at term 1 > 0.  The claim says the later-scheduled
option `CS 999` is recorded in `laterMentions`; the code breaks at the
satisfied option `CS 261` first, so `laterMentions` is empty. -/
theorem claim_C1_counterexample :
    mapGet [("CS 999", 1)] "CS 999" = some 1 ∧ (0 : Nat) < 1 ∧
    mapGet ([("CS 362", [["CS 261", "CS 999"]])] : PrereqCache) "CS 362" =
      some [["CS 261", "CS 999"]] ∧
    (evalItem ["CS 261"] [("CS 999", 1)] [] [("CS 362", [["CS 261", "CS 999"]])]
      ⟨"CS 362", 0, "X"⟩).2 = [] := by decide

/-- Claim C2 (confirmed).  `buildPrereqGroups` produces exactly the groups
described by the walk of the specification (flush on open-parenthesis or
`"A"` connector with a non-empty current group, always append the code,
flush on close-parenthesis, flush the leftover group, de-dupe within each
group), and the token encoding of `(CS 261 OR CS 261H) AND (ECE 271 OR
CS 271)` yields exactly `[["CS 261","CS 261H"], ["ECE 271","CS 271"]]`. -/
theorem claim_C2_buildPrereqGroups :
    (∀ toks, buildPrereqGroups toks = buildPrereqGroupsSpec toks) ∧
    buildPrereqGroups exampleTokens = [["CS 261", "CS 261H"], ["ECE 271", "CS 271"]] :=
  ⟨buildPrereqGroups_eq_spec, by decide⟩

/-- Claim C5 (corrected).  A group whose candidate options are all
later-scheduled is unsatisfied and reports every option in
`laterMentions`; a group whose scan reaches no later-scheduled option
before its first satisfying option reports none; and (for formulas whose
groups are all non-empty) the badge is cleared iff both `missingGroups`
and `laterMentions` are empty.  The correction relative to the claim as
stated: a satisfied group still contributes `laterMentions` entries for
later-scheduled options examined before its first satisfying option, and
such a course's badge is set, not cleared. -/
theorem claim_C5_laterMentions (hist : List String) (c2i : List (String × Nat))
    (t2l : List (Nat × String)) (myIdx : Nat) (g : List String)
    (cache : PrereqCache) (it : SchedItem) :
    ((∀ o ∈ g, optIsLater c2i myIdx o = true) →
      (evalGroup hist c2i t2l myIdx g).1 = false ∧
      (evalGroup hist c2i t2l myIdx g).2.map (fun m => m.code) = g) ∧
    ((∀ o ∈ g.takeWhile (fun o => !optBreaks hist c2i myIdx o),
        optIsLater c2i myIdx o = false) →
      (evalGroup hist c2i t2l myIdx g).2 = []) ∧
    ((∀ g2 ∈ (mapGet cache it.courseCode).getD [], g2 ≠ []) →
      (actionFor hist c2i t2l cache it = BadgeAction.clear ↔
        (evalItem hist c2i t2l cache it).1 = [] ∧
        (evalItem hist c2i t2l cache it).2 = [])) := by
  refine ⟨?_, ?_, actionFor_clear_iff hist c2i t2l cache it⟩
  · intro hall
    constructor
    · rw [evalGroup_fst]
      simp only [List.any_eq_false]
      intro o ho
      simp [optBreaks_of_isLater (hall o ho)]
    · rw [evalGroup_snd]
      rw [List.takeWhile_eq_self_iff.mpr
        (fun o ho => by simp [optBreaks_of_isLater (hall o ho)])]
      exact filterMap_mention_all_later c2i t2l myIdx g hall
  · intro hpre
    rw [evalGroup_snd]
    exact List.filterMap_eq_nil_iff.mpr
      (fun o ho => mentionIfLater_of_isLater_false t2l (hpre o ho))

/-- Witness for the C5 theorem: all three components applied at concrete
inputs. -/
theorem claim_C5_witness :
    ((evalGroup [] [("CS 500", 2)] [] 0 ["CS 500"]).1 = false ∧
      (evalGroup [] [("CS 500", 2)] [] 0 ["CS 500"]).2.map (fun m => m.code) = ["CS 500"]) ∧
    (evalGroup [] [] [] 0 ["CS 100"]).2 = [] ∧
    (actionFor ["CS 261"] [] [] [("CS 362", [["CS 261"]])] ⟨"CS 362", 0, "T"⟩ =
        BadgeAction.clear ↔
      (evalItem ["CS 261"] [] [] [("CS 362", [["CS 261"]])] ⟨"CS 362", 0, "T"⟩).1 = [] ∧
      (evalItem ["CS 261"] [] [] [("CS 362", [["CS 261"]])] ⟨"CS 362", 0, "T"⟩).2 = []) :=
  ⟨(claim_C5_laterMentions [] [("CS 500", 2)] [] 0 ["CS 500"] [] ⟨"", 0, ""⟩).1 (by decide),
   (claim_C5_laterMentions [] [] [] 0 ["CS 100"] [] ⟨"", 0, ""⟩).2.1 (by decide),
   (claim_C5_laterMentions ["CS 261"] [] [] 0 [] [("CS 362", [["CS 261"]])]
      ⟨"CS 362", 0, "T"⟩).2.2 (by decide)⟩

/-- Counterexample to claim C5 as stated: formula `[["CS 999", "CS 261"]]`
for `CS 362` at term 0, with `CS 999` scheduled at term 1 and `CS 261` in
the HistorySet.  The group has a non-later candidate (`CS 261`) and is
satisfied by it, yet `laterMentions` contains `CS 999` and the (fully
satisfied) course's badge is set, not cleared. -/
theorem claim_C5_counterexample :
    (evalItem ["CS 261"] [("CS 999", 1)] [] [("CS 362", [["CS 999", "CS 261"]])]
      ⟨"CS 362", 0, "X"⟩).1 = [] ∧
    (evalItem ["CS 261"] [("CS 999", 1)] [] [("CS 362", [["CS 999", "CS 261"]])]
      ⟨"CS 362", 0, "X"⟩).2 = [⟨"CS 999", "Term 2"⟩] ∧
    mapGet [("CS 999", 1)] "CS 261" = none ∧
    actionFor ["CS 261"] [("CS 999", 1)] [] [("CS 362", [["CS 999", "CS 261"]])]
      ⟨"CS 362", 0, "X"⟩ = .set "Missing Prerequisite: CS 999" := by decide

/-- Claim C3 (corrected).  A batch whose fetch fails (non-ok response,
i.e. a throw from `fetchCourseInfoForTerm`) aborts not only that batch but
every remaining batch of the same pass — the loop has no per-batch
try/catch, so the exception propagates out of `ensurePrereqsForScheduled`
(the correction relative to the claim as stated); batches that completed
before the failure keep their cache updates, and any course whose formula
is absent from the cache is evaluated with the empty formula (vacuously
satisfied, badge cleared). -/
theorem claim_C3_batchFailure :
    (∀ net (t : String) (l : List CourseParts) rest (cache : PrereqCache),
      net t (dedupParts [] l) = none →
      runBatches net ((t, l) :: rest) cache = (cache, false)) ∧
    (∀ (hist : List String) (c2i : List (String × Nat)) (t2l : List (Nat × String))
        (cache : PrereqCache) (it : SchedItem),
      mapGet cache it.courseCode = none →
      evalItem hist c2i t2l cache it = ([], []) ∧
      actionFor hist c2i t2l cache it = BadgeAction.clear) := by
  constructor
  · intro net t l rest cache h
    simp [runBatches, fetchCourseInfoForTerm, h]
  · intro hist c2i t2l cache it hnone
    have h0 : evalItem hist c2i t2l cache it = ([], []) := by
      rw [evalItem_spec, hnone]; rfl
    exact ⟨h0, by simp [actionFor, h0]⟩

/-- Witness for the C3 theorem: the failing first batch of `splitNet`
aborts the loop immediately, and an uncached course is cleared. -/
theorem claim_C3_witness :
    runBatches splitNet [("202601", [⟨"AA", "101"⟩]), ("202602", [⟨"BB", "202"⟩])] [] =
      ([], false) ∧
    actionFor [] [] [] [] ⟨"BB 202", 1, "T"⟩ = BadgeAction.clear :=
  ⟨claim_C3_batchFailure.1 splitNet "202601" [⟨"AA", "101"⟩]
      [("202602", [⟨"BB", "202"⟩])] [] (by decide),
   (claim_C3_batchFailure.2 [] [] [] [] ⟨"BB 202", 1, "T"⟩ rfl).2⟩

/-- Counterexample to claim C3 as stated: two scheduled courses in
different term batches; the network fails for the first term (`202601`)
and would answer for the second (`202602`).  The claim says the second
batch is still fetched and processed in the same pass; in fact the pass
aborts and `BB 202`'s formula is never stored. -/
theorem claim_C3_counterexample :
    ensurePrereqsForScheduled splitNet []
      [⟨"AA 101", 0, "202601"⟩, ⟨"BB 202", 1, "202602"⟩] = ([], false) ∧
    mapGet (ensurePrereqsForScheduled splitNet []
      [⟨"AA 101", 0, "202601"⟩, ⟨"BB 202", 1, "202602"⟩]).1 "BB 202" = none ∧
    splitNet "202602" [⟨"BB", "202"⟩] =
      some [⟨"BB", "202", [⟨"CS", "101", "", "", ""⟩]⟩] := by decide

/-- Claim C4 (corrected).  When the identity lookup or audit fetch fails,
the error is swallowed at the tick boundary (no throw escapes), the
HistorySet is left unchanged (empty) for that pass, and — because the
`initialized` latch is set to `true` *before* `ensureHistorySet()` is
awaited and is never reset — no later tick in the page session attempts
the audit fetch again (the correction relative to the claim as stated,
which asserted a retry on the next tick). -/
theorem claim_C4_noRetry (st : HistTickState) (h : st.initialized = false) :
    ((tickBootstrap .failed st).1.historySet = st.historySet ∧
     (tickBootstrap .failed st).1.initialized = true ∧
     (tickBootstrap .failed st).2 = true) ∧
    (∀ o, tickBootstrap o (tickBootstrap .failed st).1 = ((tickBootstrap .failed st).1, false)) := by
  constructor
  · simp [tickBootstrap, h]
  · intro o
    simp [tickBootstrap, h]

/-- Witness for the C4 theorem: a failed bootstrap from the initial state,
followed by a tick whose fetch would have succeeded. -/
theorem claim_C4_witness :
    ((tickBootstrap .failed ⟨false, []⟩).1.historySet = [] ∧
     (tickBootstrap .failed ⟨false, []⟩).1.initialized = true ∧
     (tickBootstrap .failed ⟨false, []⟩).2 = true) ∧
    tickBootstrap (.fetched ["CS 261"]) (tickBootstrap .failed ⟨false, []⟩).1 =
      ((tickBootstrap .failed ⟨false, []⟩).1, false) :=
  ⟨(claim_C4_noRetry ⟨false, []⟩ rfl).1,
   (claim_C4_noRetry ⟨false, []⟩ rfl).2 (.fetched ["CS 261"])⟩

/-- Counterexample to claim C4 as stated: the first tick's audit fetch
fails; on the next scheduled tick the fetch is *not* attempted again (the
`initialized` latch was already set) and the HistorySet stays empty even
though the fetch would now succeed. -/
theorem claim_C4_counterexample :
    (tickBootstrap .failed ⟨false, []⟩).1 = ⟨true, []⟩ ∧
    (tickBootstrap .failed ⟨false, []⟩).2 = true ∧
    (tickBootstrap (.fetched ["CS 261"]) (tickBootstrap .failed ⟨false, []⟩).1).2 = false ∧
    (tickBootstrap (.fetched ["CS 261"])
      (tickBootstrap .failed ⟨false, []⟩).1).1.historySet = [] := by decide

/-- Claim C6 (code bug).  `setPrereqsEnabled(false)` does clear all badges
synchronously, and `tick` checks the flag at its first line; but a pass
that was already past that check when the disable arrived runs
`applyWarnings` with no further flag check, so its `setBadge` writes land
while the feature is disabled: starting from the enabled empty state, the
guard passes, the disable event clears the badges and flips the flag, and
the pass resumption then writes the `CS 362` badge into the disabled
state. -/
theorem claim_C6_badgeAfterDisable :
    tickGuard ⟨true, []⟩ = true ∧
    setPrereqsEnabled false
        ⟨true, [(⟨"CS 362", 0, "202601"⟩, "Missing Prerequisite: CS 261")]⟩ =
      ⟨false, []⟩ ∧
    (tickFinishPass [] [("CS 362", 0)] [(0, "Fall 2025")] [("CS 362", [["CS 261"]])]
      [⟨"CS 362", 0, "202601"⟩] (setPrereqsEnabled false ⟨true, []⟩)).prereqsEnabled = false ∧
    (tickFinishPass [] [("CS 362", 0)] [(0, "Fall 2025")] [("CS 362", [["CS 261"]])]
      [⟨"CS 362", 0, "202601"⟩] (setPrereqsEnabled false ⟨true, []⟩)).badges =
      [(⟨"CS 362", 0, "202601"⟩, "Missing Prerequisite: CS 261")] := by decide

/-- Claim C7 (corrected).  For every recognized season the resolver
returns the concatenation of the adjusted year (input year for
Winter/Spring, input year plus one for Summer/Fall) with the fixed
two-digit suffix, and unknown seasons are unresolved; the code is
6 characters exactly when the adjusted year prints as 4 digits — which
fails for Summer/Fall of year 9999, the correction relative to the claim
as stated. -/
theorem claim_C7_termLabelToCode (year : Nat) :
    termLabelToCode "Summer" year = some (toString (year + 1) ++ "00") ∧
    termLabelToCode "Fall" year = some (toString (year + 1) ++ "01") ∧
    termLabelToCode "Winter" year = some (toString year ++ "02") ∧
    termLabelToCode "Spring" year = some (toString year ++ "03") ∧
    (∀ season : String, season ≠ "Summer" → season ≠ "Fall" → season ≠ "Winter" →
      season ≠ "Spring" → termLabelToCode season year = none) ∧
    ((toString year).length = 4 →
      ((termLabelToCode "Winter" year).getD "").length = 6 ∧
      ((termLabelToCode "Spring" year).getD "").length = 6) ∧
    ((toString (year + 1)).length = 4 →
      ((termLabelToCode "Summer" year).getD "").length = 6 ∧
      ((termLabelToCode "Fall" year).getD "").length = 6) := by
  refine ⟨rfl, rfl, rfl, rfl, ?_, ?_, ?_⟩
  · intro season h1 h2 h3 h4
    simp [termLabelToCode, beq_eq_false_iff_ne.mpr h1, beq_eq_false_iff_ne.mpr h2,
      beq_eq_false_iff_ne.mpr h3, beq_eq_false_iff_ne.mpr h4]
  · intro h4
    constructor
    · show (toString year ++ "02").length = 6
      rw [String.length_append, h4]
      rfl
    · show (toString year ++ "03").length = 6
      rw [String.length_append, h4]
      rfl
  · intro h4
    constructor
    · show (toString (year + 1) ++ "00").length = 6
      rw [String.length_append, h4]
      rfl
    · show (toString (year + 1) ++ "01").length = 6
      rw [String.length_append, h4]
      rfl

/-- Witness for the C7 theorem: the specification's four examples and an
unknown season, derived from the theorem at concrete years. -/
theorem claim_C7_witness :
    termLabelToCode "Fall" 2025 = some "202601" ∧
    termLabelToCode "Summer" 2025 = some "202600" ∧
    termLabelToCode "Winter" 2026 = some "202602" ∧
    termLabelToCode "Spring" 2026 = some "202603" ∧
    termLabelToCode "July" 2025 = none ∧
    ((termLabelToCode "Fall" 2025).getD "").length = 6 := by
  refine ⟨?_, ?_, ?_, ?_, ?_, ?_⟩
  · rw [(claim_C7_termLabelToCode 2025).2.1]; rfl
  · rw [(claim_C7_termLabelToCode 2025).1]; rfl
  · rw [(claim_C7_termLabelToCode 2026).2.2.1]; rfl
  · rw [(claim_C7_termLabelToCode 2026).2.2.2.1]; rfl
  · exact (claim_C7_termLabelToCode 2025).2.2.2.2.1 "July"
      (by decide) (by decide) (by decide) (by decide)
  · exact ((claim_C7_termLabelToCode 2025).2.2.2.2.2.2 (by rfl)).2

/-- Counterexample to claim C7 as stated: `Fall` of the 4-digit year 9999
resolves to the 7-character code `"1000001"`, not a 6-character code. -/
theorem claim_C7_counterexample :
    termLabelToCode "Fall" 9999 = some "1000001" ∧
    ("1000001" : String).length ≠ 6 := by decide

/-- Claim C8 (corrected).  Normalization first trims the input and
collapses every interior whitespace run to a single space; when the
resulting string does not match the pattern it is that trimmed/collapsed
string which is returned — so an input that is already in collapsed form
comes back unchanged, but an input with leading/trailing/multiple spaces
does not (the correction relative to the claim as stated); a collapsed
string that matches is returned as `DISC NNN[L]` with the number part
uppercased, and no failure is possible (the function is total). -/
theorem claim_C8_normalizeCourseCode :
    (∀ raw, jsCollapse (jsTrim raw) = raw → courseCodeMatchStr raw = none →
      normalizeCourseCode raw = raw) ∧
    (∀ raw d n, courseCodeMatchStr (jsCollapse (jsTrim raw)) = some (d, n) →
      normalizeCourseCode raw = d ++ " " ++ strUpper n) ∧
    normalizeCourseCode "CS361" = "CS 361" ∧
    normalizeCourseCode "ece271" = "ece271" := by
  refine ⟨?_, ?_, by decide, by decide⟩
  · intro raw hcol hm
    simp only [normalizeCourseCode, hcol, hm]
  · intro raw d n hm
    simp only [normalizeCourseCode, hm]

/-- Witness for the C8 theorem: a collapsed non-matching input is returned
unchanged, and a matching input is normalized. -/
theorem claim_C8_witness :
    normalizeCourseCode "XY 99" = "XY 99" ∧ normalizeCourseCode "MTH251" = "MTH 251" :=
  ⟨claim_C8_normalizeCourseCode.1 "XY 99" (by decide) (by decide),
   by rw [claim_C8_normalizeCourseCode.2.1 "MTH251" "MTH" "251" (by decide)]; decide⟩

/-- Counterexample to claim C8 as stated: the input `"CS  361"` (two
spaces) does not match the pattern, yet the normalizer does not return it
unchanged — it returns the collapsed `"CS 361"`. -/
theorem claim_C8_counterexample :
    courseCodeMatchStr "CS  361" = none ∧
    normalizeCourseCode "CS  361" = "CS 361" ∧
    ("CS 361" : String) ≠ "CS  361" := by decide

/-- Claim C9 (confirmed).  For every page, the `courseToIndex` entry of a
code is the `termIndex` of the last collected occurrence of that code
(later columns overwrite earlier ones, which is what the Evaluator's
`courseToIndex.get` then sees), while `items` keeps one instance per
occurrence — demonstrated on a two-column planner scheduling `CS 261`
twice. -/
theorem claim_C9_collectScheduled :
    (∀ cols c, mapGet (collectScheduled cols).courseToIndex c =
      ((collectScheduled cols).items.reverse.find? (fun it => it.courseCode == c)).map
        (fun it => it.termIndex)) ∧
    (collectScheduled twoColPage).items =
      [⟨"CS 261", 0, "202601"⟩, ⟨"CS 261", 1, "202602"⟩] ∧
    mapGet (collectScheduled twoColPage).courseToIndex "CS 261" = some 1 :=
  ⟨fun cols c => collectScheduled_lastIdx cols c, by decide, by decide⟩

/-- Claim C10 (confirmed).  Every group `buildPrereqGroups` emits (hence
every formula `fetchCourseInfoForTerm` stores) is non-empty and free of
duplicates, and the old-format cache migration of `loadPrereqCache` turns
a flat string list into singleton groups. -/
theorem claim_C10_formula_invariants :
    (∀ toks g, g ∈ buildPrereqGroups toks → g ≠ [] ∧ g.Nodup) ∧
    (∀ (codes : List String) g, g ∈ loadPrereqEntryVal (.oldFormat codes) → ∃ c, g = [c]) := by
  refine ⟨fun toks g hg => buildPrereqGroups_mem toks g hg, ?_⟩
  intro codes g hg
  simp only [loadPrereqEntryVal, List.mem_map] at hg
  obtain ⟨c, -, rfl⟩ := hg
  exact ⟨c, rfl⟩

/-- Witness for the C10 theorem at concrete inputs. -/
theorem claim_C10_witness :
    ((["CS 261", "CS 261H"] : List String) ≠ [] ∧
      (["CS 261", "CS 261H"] : List String).Nodup) ∧
    ∃ c, (["CS 300"] : List String) = [c] :=
  ⟨claim_C10_formula_invariants.1 exampleTokens ["CS 261", "CS 261H"] (by decide),
   claim_C10_formula_invariants.2 ["CS 300"] ["CS 300"] (by decide)⟩

end MDE
